import Mathlib

/-!
Verification of the Vertical_Analysis pipeline against its specification.

The Python sources are shallowly embedded: rows are association lists from
column name to string value (a missing key reads as the empty string, which is
how csv.DictReader/DictWriter round-trip absent values), the retry loops are
embedded as total functions over an oracle giving the outcome of each attempt,
the semaphore-bounded dispatcher is a small-step transition system, and the
file saves are traces of file-system operations.
-/

/- ## String helpers (Python str.strip and substring search) -/

/-- The ASCII whitespace characters stripped by Python str.strip(). -/
def isPySpace (c : Char) : Bool :=
  c = ' ' || c = '\t' || c = '\n' || c = '\r' || c = '\x0b' || c = '\x0c'

def pyStripList (l : List Char) : List Char :=
  ((l.dropWhile isPySpace).reverse.dropWhile isPySpace).reverse

/-- Model of Python str.strip() with no arguments (ASCII fragment). -/
def pyStrip (s : String) : String := ⟨pyStripList s.data⟩

/-- Remainder of the text after the first occurrence of the pattern,
or none when the pattern does not occur. -/
def findRest (pat : List Char) : List Char → Option (List Char)
  | [] => if pat.isPrefixOf ([] : List Char) then some [] else none
  | c :: tl =>
    if pat.isPrefixOf (c :: tl) then some ((c :: tl).drop pat.length)
    else findRest pat tl

/-- Whether the needle occurs as a contiguous substring of the haystack. -/
def substrOccurs (needle hay : String) : Bool := (findRest needle.data hay.data).isSome

/- ## Rows: association lists from column name to string value.

Models a csv.DictReader row. Reading an absent column yields the empty
string (the row.get(col, default) idiom used throughout the sources);
assignment replaces the value of an existing key in place or appends. -/

abbrev Row := List (String × String)

def rget (r : Row) (c : String) : String :=
  match r with
  | [] => ""
  | p :: tl => if p.1 = c then p.2 else rget tl c

def rset (r : Row) (c v : String) : Row :=
  match r with
  | [] => [(c, v)]
  | p :: tl => if p.1 = c then (c, v) :: tl else p :: rset tl c v

namespace Save

inductive Op where
  /-- tempfile.mkstemp in the destination directory. -/
  | createTemp
  /-- one csv.DictWriter write into the temporary file. -/
  | writeTemp (chunk : String)
  /-- os.replace of the temporary file over the destination. -/
  | renameTempToDest
  /-- open(dest, mode w): truncates the destination in place. -/
  | openTruncDest
  /-- one csv.DictWriter write directly into the destination. -/
  | writeDest (chunk : String)
deriving DecidableEq

structure FS where
  dest : List String
  temp : Option (List String)
deriving DecidableEq

def applyOp (fs : FS) : Op → FS
  | .createTemp => { fs with temp := some [] }
  | .writeTemp c => { fs with temp := some ((fs.temp.getD []) ++ [c]) }
  | .renameTempToDest => { dest := fs.temp.getD fs.dest, temp := none }
  | .openTruncDest => { fs with dest := [] }
  | .writeDest c => { fs with dest := fs.dest ++ [c] }

def run (fs : FS) (ops : List Op) : FS := ops.foldl applyOp fs

/-- The destination contents a concurrent reader can observe: one snapshot
before, between and after every operation of the trace. -/
def observations (fs : FS) (ops : List Op) : List (List String) :=
  (List.scanl applyOp fs ops).map FS.dest

/-- A save trace is atomic when every observable destination content is
either the pre-save content or the final post-save content. -/
def atomic (fs : FS) (ops : List Op) : Prop :=
  ∀ d ∈ observations fs ops, d = fs.dest ∨ d = (run fs ops).dest

instance (fs : FS) (ops : List Op) : Decidable (atomic fs ops) := by
  unfold atomic; infer_instance

/-- Save used by assign_vert.py lines 116-122 and 142-148, company_type.py
lines 161-167 and sub_vertical.py save_progress and save_final: create a
temporary file in the destination directory, write every chunk there, then
os.replace it over the destination. -/
def tempRenameSaveOps (chunks : List String) : List Op :=
  Op.createTemp :: (chunks.map Op.writeTemp ++ [Op.renameTempToDest])

/-- Save used by website_info_perplexity.py lines 88-92 (the per-row save in
limited_request), scoring.py lines 36-39, 179-182 and 223-226, and
company_type.py lines 110-116 (the rewrite of the output when the work
list is empty): open the destination itself with mode w (truncating it)
and write the chunks. -/
def inPlaceSaveOps (chunks : List String) : List Op :=
  Op.openTruncDest :: chunks.map Op.writeDest

end Save

namespace Retry

/-- Outcome of one awaited remote call: a timeout, another exception with its
Python type name and message, or a response text. -/
inductive AttemptOutcome where
  | timeout
  | failure (kind detail : String)
  | success (text : String)

def AttemptOutcome.isSuccess : AttemptOutcome → Bool
  | .success _ => true
  | _ => false

structure RetryTrace where
  result : String
  attempts : Nat
  sleeps : List Nat
deriving DecidableEq

/-- MAX_RETRIES = 3 in assign_vert.py line 19, scoring.py line 21 and as the
default of sub_vertical.py line 25. -/
def MAX_RETRIES : Nat := 3

/-- Python type(e).name for the caught exception: TimeoutError for a timeout. -/
def excKind : AttemptOutcome → String
  | .timeout => "TimeoutError"
  | .failure k _ => k
  | .success _ => ""

/-- Python str(e) for the caught exception: empty for a bare TimeoutError. -/
def excDetail : AttemptOutcome → String
  | .timeout => ""
  | .failure _ d => d
  | .success _ => ""

/-- assign_vert.py classify_vertical, lines 21-47.  The second Nat argument is
the number of attempts still allowed including the current one. -/
def classify_vertical_loop (oc : Nat → AttemptOutcome) :
    Nat → Nat → List Nat → RetryTrace
  | _, 0, sleeps => { result := "", attempts := 0, sleeps := sleeps.reverse }
  | attempt, 1, sleeps =>
    match oc attempt with
    | .success s => { result := pyStrip s, attempts := attempt, sleeps := sleeps.reverse }
    | o =>
      { result := "ERROR after " ++ toString MAX_RETRIES ++ " attempts: " ++
          excKind o ++ ": " ++ excDetail o,
        attempts := attempt, sleeps := sleeps.reverse }
  | attempt, fuel + 2, sleeps =>
    match oc attempt with
    | .success s => { result := pyStrip s, attempts := attempt, sleeps := sleeps.reverse }
    | _ => classify_vertical_loop oc (attempt + 1) (fuel + 1) (2 ^ (attempt - 1) :: sleeps)

def classify_vertical (oc : Nat → AttemptOutcome) : RetryTrace :=
  classify_vertical_loop oc 1 MAX_RETRIES []

/-- sub_vertical.py classify_sub_vertical, lines 34-54: same loop, but the
string returned after the final failed attempt is the plain per-attempt error
string (ERROR: timeout, or ERROR: followed by the exception message). -/
def svErrStr : AttemptOutcome → String
  | .timeout => "ERROR: timeout"
  | .failure _ d => "ERROR: " ++ d
  | .success _ => ""

def classify_sub_vertical_loop (oc : Nat → AttemptOutcome) :
    Nat → Nat → List Nat → RetryTrace
  | _, 0, sleeps => { result := "", attempts := 0, sleeps := sleeps.reverse }
  | attempt, 1, sleeps =>
    match oc attempt with
    | .success s => { result := pyStrip s, attempts := attempt, sleeps := sleeps.reverse }
    | o => { result := svErrStr o, attempts := attempt, sleeps := sleeps.reverse }
  | attempt, fuel + 2, sleeps =>
    match oc attempt with
    | .success s => { result := pyStrip s, attempts := attempt, sleeps := sleeps.reverse }
    | _ => classify_sub_vertical_loop oc (attempt + 1) (fuel + 1) (2 ^ (attempt - 1) :: sleeps)

def classify_sub_vertical (oc : Nat → AttemptOutcome) : RetryTrace :=
  classify_sub_vertical_loop oc 1 MAX_RETRIES []

/-- scoring.py process_row retry loop, lines 129-150: same schedule, with the
exhaustion message of line 148. -/
def scoring_retry_loop (oc : Nat → AttemptOutcome) :
    Nat → Nat → List Nat → RetryTrace
  | _, 0, sleeps => { result := "", attempts := 0, sleeps := sleeps.reverse }
  | attempt, 1, sleeps =>
    match oc attempt with
    | .success s => { result := pyStrip s, attempts := attempt, sleeps := sleeps.reverse }
    | o =>
      { result := "ERROR: Failed after " ++ toString MAX_RETRIES ++ " attempts: " ++
          excKind o ++ ": " ++ excDetail o,
        attempts := attempt, sleeps := sleeps.reverse }
  | attempt, fuel + 2, sleeps =>
    match oc attempt with
    | .success s => { result := pyStrip s, attempts := attempt, sleeps := sleeps.reverse }
    | _ => scoring_retry_loop oc (attempt + 1) (fuel + 1) (2 ^ (attempt - 1) :: sleeps)

def scoring_retry (oc : Nat → AttemptOutcome) : RetryTrace :=
  scoring_retry_loop oc 1 MAX_RETRIES []

end Retry

namespace Dispatcher

inductive Phase where
  /-- task created, waiting to acquire a semaphore slot. -/
  | waiting
  /-- slot acquired, remote call not yet issued. -/
  | holding
  /-- remote call in flight (slot held). -/
  | inCall
  /-- remote call ended, by success, timeout or exception (slot still held). -/
  | finished
  /-- slot released, task terminal. -/
  | released
deriving DecidableEq

def holdsSlot : Phase → Bool
  | .holding => true
  | .inCall => true
  | .finished => true
  | _ => false

def isInCall : Phase → Bool
  | .inCall => true
  | _ => false

/-- Number of tasks currently holding a semaphore slot. -/
def holders (s : List Phase) : Nat := s.countP holdsSlot

/-- Number of remote calls currently in flight. -/
def inFlight (s : List Phase) : Nat := s.countP isInCall

/-- One scheduler step of the cooperative event loop: a slot can only be
acquired while fewer than cap are held, the remote call is only issued by a
slot holder, and the slot is released after the call ends regardless of
whether it succeeded (the ok flag records the success or failure exit). -/
inductive Step (cap : Nat) : List Phase → List Phase → Prop where
  | acquire (s : List Phase) (i : Nat) :
      s.get? i = some .waiting → holders s < cap → Step cap s (s.set i .holding)
  | issue (s : List Phase) (i : Nat) :
      s.get? i = some .holding → Step cap s (s.set i .inCall)
  | finish (s : List Phase) (i : Nat) (ok : Bool) :
      s.get? i = some .inCall → Step cap s (s.set i .finished)
  | release (s : List Phase) (i : Nat) :
      s.get? i = some .finished → Step cap s (s.set i .released)

/-- States reachable from a work list of n freshly created tasks. -/
inductive Reachable (cap n : Nat) : List Phase → Prop where
  | init : Reachable cap n (List.replicate n .waiting)
  | step {s t : List Phase} : Reachable cap n s → Step cap s t → Reachable cap n t

end Dispatcher

/- ## Stage models: eligibility filtering, task results, merge by key.

The classifier and the per-row task are abstracted by an oracle mapping a
work-list row to either the text the task stores in the output column or the
error a task raised; a task is modelled atomically, so a failed task
contributes no row mutation, which is the view the dispatcher boundary code
has of it. -/

/-- Last result whose key equals k: a Python dict comprehension built from a
result list keeps the LAST entry for a repeated key. -/
def dictLookupLast (key : Row → String) (results : List Row) (k : String) : Option Row :=
  results.reverse.find? (fun r => key r == k)

/-- The merge loops of assign_vert.py lines 132-140, company_type.py lines
150-158 and sub_vertical.py lines 210-217: each row of the full dataset is
replaced by the processed-map entry for its key when one exists and kept
verbatim otherwise. -/
def mergeByKey (key : Row → String) (results rows : List Row) : List Row :=
  rows.map (fun row =>
    match dictLookupLast key results (key row) with
    | some pr => pr
    | none => row)

namespace CompanyType

def CT_COL : String := "Company Type"

/-- company_type.py uses the stripped Company name column as the row key. -/
def nameKey (r : Row) : String := pyStrip (rget r "Company name")

/-- company_type.py lines 139-148: each gathered task outcome is inspected;
an exception at position i is converted into the work-list row at i with the
output column set to the ERROR string, a normal completion is kept as-is. -/
def normalize_gathered (work : List Row) (gathered : List (Except String Row)) : List Row :=
  (work.zip gathered).map (fun p =>
    match p.2 with
    | .ok r => r
    | .error e => rset p.1 CT_COL ("ERROR: " ++ e))

/-- company_type.py lines 150-167: merge the normalized results into the full
row list by Company name and write the output. -/
def dispatch_merge (rows work : List Row) (gathered : List (Except String Row)) : List Row :=
  mergeByKey nameKey (normalize_gathered work gathered) rows

/-- Python truthiness test of line 98: the name is an existing key whose
recorded classification is non-empty. -/
def lookupLastStr (l : List (String × String)) (k : String) : Option String :=
  (l.reverse.find? (fun p => p.1 == k)).map Prod.snd

def bmSentinel (r : Row) : Bool :=
  let bm := pyStrip (rget r "BUSINESS_MODEL")
  bm == "Not specified" || bm == "N/A"

inductive Decision where
  | useExisting (v : String)
  | markEmpty
  | enqueue
deriving DecidableEq

/-- company_type.py lines 93-106: a row with a recorded non-empty
classification reuses it; otherwise a sentinel business model marks the row
processed-as-empty; otherwise the row is enqueued for classification. -/
def decide_row (existing : List (String × String)) (r : Row) : Decision :=
  match lookupLastStr existing (nameKey r) with
  | some v =>
    if v = "" then (if bmSentinel r then .markEmpty else .enqueue)
    else .useExisting v
  | none => if bmSentinel r then .markEmpty else .enqueue

def apply_decision (r : Row) : Decision → Row
  | .useExisting v => rset r CT_COL v
  | .markEmpty => rset r CT_COL ""
  | .enqueue => r

def prepare (existing : List (String × String)) (rows : List Row) : List Row × List Row :=
  (rows.map (fun r => apply_decision r (decide_row existing r)),
   rows.filter (fun r => decide_row existing r == .enqueue))

/-- company_type.py lines 67-76: the existing-output index keeps, per stripped
Company name, the stripped non-empty Company Type values of a saved output. -/
def existingFrom (outRows : List Row) : List (String × String) :=
  outRows.filterMap (fun r =>
    let v := pyStrip (rget r CT_COL)
    if v = "" then none else some (nameKey r, v))

end CompanyType

namespace AssignVert

def VERTICAL_COL : String := "Vertical"

def URL_COL : String := "URL"

/-- assign_vert.py lines 70-79: process a row only when its Vertical strips
to empty and its Company Type strips to Distributor or Both. -/
def eligible (r : Row) : Bool :=
  pyStrip (rget r VERTICAL_COL) == "" &&
    (pyStrip (rget r "Company Type") == "Distributor" ||
      pyStrip (rget r "Company Type") == "Both")

def rows_to_process (rows : List Row) : List Row := rows.filter eligible

/-- assign_vert.py uses the stripped URL column as the row key (line 110). -/
def urlKey (r : Row) : String := pyStrip (rget r URL_COL)

/-- assign_vert.py process_row lines 86-123 viewed atomically: on success the
task stores the classifier text in the Vertical column of its row, a raised
error leaves no completed row. -/
def runTasks (work : List Row) (oc : Row → Except String String) : List (Except String Row) :=
  work.map (fun w =>
    match oc w with
    | .ok v => .ok (rset w VERTICAL_COL v)
    | .error e => .error e)

/-- assign_vert.py line 133: only results that are dicts enter the processed
map; exception objects in the gathered list are dropped. -/
def gatherDicts (gathered : List (Except String Row)) : List Row :=
  gathered.filterMap (fun g =>
    match g with
    | .ok r => some r
    | .error _ => none)

def results (rows : List Row) (oc : Row → Except String String) : List Row :=
  gatherDicts (runTasks (rows_to_process rows) oc)

/-- assign_vert.py main_async lines 129-148: filter, dispatch, gather, merge
by URL. -/
def stage (rows : List Row) (oc : Row → Except String String) : List Row :=
  mergeByKey urlKey (results rows oc) rows

end AssignVert

namespace SubVertical

def SUB_VERTICAL_COL : String := "Sub Vertical"

def VERTICAL_COL : String := "Vertical"

/-- sub_vertical.py lines 116-119. -/
def ALLOWED_VERTICALS : List String :=
  ["Alcohol", "Bakery", "Beverage", "Broadline", "C-Store",
   "Ice Cream", "Jan-San", "Meat", "Produce", "Seafood"]

/-- sub_vertical.py uses the stripped Record ID as the row key (line 125). -/
def ridKey (r : Row) : String := pyStrip (rget r "Record ID")

/-- sub_vertical.py lines 123-143: process a row only when it has a Record
ID, its Sub Vertical strips to empty, and its stripped Vertical is non-empty
and in the allow-list. -/
def eligible (r : Row) : Bool :=
  ridKey r != "" &&
    pyStrip (rget r SUB_VERTICAL_COL) == "" &&
    pyStrip (rget r VERTICAL_COL) != "" &&
    ALLOWED_VERTICALS.contains (pyStrip (rget r VERTICAL_COL))

def rows_to_process (rows : List Row) : List Row := rows.filter eligible

/-- sub_vertical.py process_row lines 153-200 viewed atomically: a completed
task stores its text in the Sub Vertical column and registers the row in
processed_map under its Record ID; a failed task registers nothing. -/
def runTasks (work : List Row) (oc : Row → Except String String) : List (Except String Row) :=
  work.map (fun w =>
    match oc w with
    | .ok v => .ok (rset w SUB_VERTICAL_COL v)
    | .error e => .error e)

def results (rows : List Row) (oc : Row → Except String String) : List Row :=
  (runTasks (rows_to_process rows) oc).filterMap (fun g =>
    match g with
    | .ok r => some r
    | .error _ => none)

/-- sub_vertical.py lines 210-217: a row is replaced only when it has a
Record ID with an entry in the processed map. -/
def stage (rows : List Row) (oc : Row → Except String String) : List Row :=
  rows.map (fun row =>
    if ridKey row = "" then row
    else
      match dictLookupLast ridKey (results rows oc) (ridKey row) with
      | some pr => pr
      | none => row)

end SubVertical

namespace Scoring

def SCORE_COL : String := "Score"

/-- scoring.py process_row lines 107-110: a row whose Score column holds
non-blank text is returned unchanged immediately; the Bool records whether
the task would go on to build a prompt and call the classifier. -/
def process_row_skip (r : Row) : Row × Bool :=
  if pyStrip (rget r SCORE_COL) = "" then (r, true) else (r, false)

end Scoring

namespace CleanUrls

/-- The characters of the literal http:// prefix. -/
def HTTP : List Char := ['h', 't', 't', 'p', ':', '/', '/']

/-- The characters of the literal https:// prefix. -/
def HTTPS : List Char := ['h', 't', 't', 'p', 's', ':', '/', '/']

def urlSafeChar (c : Char) : Bool := !(c = '\t' || c = '\r' || c = '\n')

def removeUnsafe (l : List Char) : List Char := l.filter urlSafeChar

def notDelim (c : Char) : Bool := !(c = '/' || c = '?' || c = '#')

def bracketMismatch (n : List Char) : Bool := n.contains '[' != n.contains ']'

/-- urllib.parse.urlsplit restricted to URLs beginning with http:// or
https://: returns the scheme rendered with its :// separator, the netloc,
and the remainder (path, query and fragment); none models ValueError. -/
def urlsplit_fragment (url : String) : Option (List Char × List Char × List Char) :=
  let u := removeUnsafe url.data
  if HTTP.isPrefixOf u then
    let n := (u.drop 7).takeWhile notDelim
    if bracketMismatch n then none
    else some (HTTP, n, (u.drop 7).dropWhile notDelim)
  else if HTTPS.isPrefixOf u then
    let n := (u.drop 8).takeWhile notDelim
    if bracketMismatch n then none
    else some (HTTPS, n, (u.drop 8).dropWhile notDelim)
  else none

/-- The line 20 prefixing: keep the stripped input when it already starts
with http:// or https://, otherwise prepend https://. -/
def prefixed (t : String) : String :=
  if HTTP.isPrefixOf t.data || HTTPS.isPrefixOf t.data then t
  else ⟨HTTPS ++ t.data⟩

/-- utils/clean_urls.py clean_url, lines 14-25: strip, return the blank
string unchanged, prepend https:// when no scheme prefix is present, and
when the parse finds a scheme and a netloc rebuild exactly scheme://netloc,
otherwise return the (possibly prefixed) stripped input. -/
def clean_url (u0 : String) : Option String :=
  let t := pyStrip u0
  if t.data.isEmpty then some t
  else
    match urlsplit_fragment (prefixed t) with
    | none => none
    | some (pre, n, _) => if n.isEmpty then some (prefixed t) else some ⟨pre ++ n⟩

end CleanUrls

namespace WebParser

/-- utils/web_parser.py lines 10-25. -/
def CATEGORIES : List String :=
  ["COMPANY_NAME", "PRODUCTS", "BUSINESS_MODEL", "WEBSITE_FINDINGS",
   "TARGET_CUSTOMERS", "DISTRIBUTION FINDINGS", "NUMBER OF TRUCKS",
   "PAYMENT PROCESSING", "ERP", "PRODUCT BRANDS", "NUMBER OF SKUS",
   "PHONE NUMBERS & EMAILS", "ADDRESS", "ADDITIONAL FINDINGS"]

/-- A character matched by the label class of the lookahead. -/
def isLabelChar (c : Char) : Bool := c.isUpper || c = ' ' || c = '_'

/-- Whether a line starting here matches the next-label alternative of the
lookahead: one or more label characters followed by a colon. -/
def labelFollows (l : List Char) : Bool :=
  let run := l.takeWhile isLabelChar
  !run.isEmpty && (l.drop run.length).head? == some ':'

/-- The lookahead of the regex at a position whose previous character is
prev: a label at a line start, or an end of line or of the string. -/
def lookaheadHolds (prev : Char) (l : List Char) : Bool :=
  (prev == '\n' && labelFollows l) || l.isEmpty || l.head? == some '\n'

/-- The lazy capture: the shortest prefix whose end position satisfies the
lookahead. -/
def lazyCapture (prev : Char) : List Char → List Char
  | [] => []
  | c :: tl => if lookaheadHolds prev (c :: tl) then [] else c :: lazyCapture c tl

/-- The value CATEGORY_REGEX[cat].search(text) extracts for one category:
N/A when the label does not occur, otherwise the stripped lazy capture after
the label and the greedy whitespace run. -/
def category_value (cat : String) (text : String) : String :=
  match findRest (cat.data ++ [':']) text.data with
  | none => "N/A"
  | some rest =>
    let ws := rest.takeWhile isPySpace
    let body := rest.drop ws.length
    let prev := ws.getLastD ':'
    pyStrip ⟨lazyCapture prev body⟩

/-- utils/web_parser.py parse_info, lines 34-45, as an association list in
category order. -/
def parse_info (info : String) : List (String × String) :=
  if info.data.isEmpty || pyStrip info = "N/A" then
    CATEGORIES.map (fun c => (c, "N/A"))
  else
    CATEGORIES.map (fun c => (c, category_value c info))

end WebParser

theorem findRest_isSome_of_isPrefixOf {pat l : List Char} (h : pat.isPrefixOf l) :
    (findRest pat l).isSome := by
  cases l with
  | nil => simp [findRest, h]
  | cons c tl => simp [findRest, h]

theorem findRest_isSome_append {pat l : List Char} (r : List Char)
    (h : (findRest pat l).isSome) : (findRest pat (l ++ r)).isSome := by
  induction l with
  | nil =>
    simp only [findRest] at h
    split at h
    · next hp =>
      have hp2 : pat.isPrefixOf (([] : List Char) ++ r) := by
        have : pat = [] := List.prefix_nil.mp (List.isPrefixOf_iff_prefix.mp hp)
        simp [this, List.isPrefixOf_iff_prefix]
      exact findRest_isSome_of_isPrefixOf hp2
    · simp at h
  | cons c tl ih =>
    simp only [findRest] at h ⊢
    by_cases hp : pat.isPrefixOf (c :: tl)
    · have hp2 : pat <+: c :: (tl ++ r) := by
        rw [List.isPrefixOf_iff_prefix] at hp
        simpa using hp.trans (List.prefix_append _ r)
      simp [hp2]
    · simp only [hp, if_false] at h
      by_cases hp3 : pat.isPrefixOf (c :: (tl ++ r))
      · simp [hp3]
      · simpa [hp3] using ih h

theorem rget_rset_self (r : Row) (c v : String) : rget (rset r c v) c = v := by
  induction r with
  | nil => simp [rget, rset]
  | cons p tl ih =>
    by_cases h : p.1 = c
    · simp [rget, rset, h]
    · simp [rget, rset, h, ih]

theorem rget_rset_ne (r : Row) {c d : String} (v : String) (h : c ≠ d) :
    rget (rset r c v) d = rget r d := by
  induction r with
  | nil => simp [rget, rset, h]
  | cons p tl ih =>
    by_cases hp : p.1 = c
    · simp [rget, rset, hp, h]
    · simp [rget, rset, hp, ih]

namespace Save

theorem observations_cons (fs : FS) (op : Op) (ops : List Op) :
    observations fs (op :: ops) = fs.dest :: observations (applyOp fs op) ops := by
  simp [observations, List.scanl]

theorem observations_nil (fs : FS) : observations fs [] = [fs.dest] := by
  simp [observations, List.scanl]

theorem run_cons (fs : FS) (op : Op) (ops : List Op) :
    run fs (op :: ops) = run (applyOp fs op) ops := rfl

theorem run_temp_phase (d : List String) (acc : List String) (chunks : List String) :
    run ⟨d, some acc⟩ (chunks.map Op.writeTemp ++ [Op.renameTempToDest]) =
      ⟨acc ++ chunks, none⟩ := by
  induction chunks generalizing acc with
  | nil => simp [run, applyOp]
  | cons c tl ih =>
    rw [List.map_cons, List.cons_append, run_cons]
    show run ⟨d, some (acc ++ [c])⟩ _ = _
    rw [ih (acc ++ [c])]
    simp

theorem obs_temp_phase (d : List String) (acc : List String) (chunks : List String) :
    ∀ x ∈ observations ⟨d, some acc⟩ (chunks.map Op.writeTemp ++ [Op.renameTempToDest]),
      x = d ∨ x = acc ++ chunks := by
  induction chunks generalizing acc with
  | nil =>
    intro x hx
    rw [List.map_nil, List.nil_append, observations_cons, observations_nil] at hx
    simp [applyOp] at hx
    rcases hx with h | h
    · exact Or.inl h
    · exact Or.inr (by simp [h])
  | cons c tl ih =>
    intro x hx
    rw [List.map_cons, List.cons_append, observations_cons] at hx
    rcases List.mem_cons.mp hx with h | h
    · exact Or.inl h
    · have := ih (acc ++ [c]) x (by simpa [applyOp] using h)
      simpa using this

theorem tempRenameSave_atomic (fs : FS) (chunks : List String) :
    atomic fs (tempRenameSaveOps chunks) ∧
      (run fs (tempRenameSaveOps chunks)).dest = chunks := by
  have hrun : run fs (tempRenameSaveOps chunks) = ⟨chunks, none⟩ := by
    rw [tempRenameSaveOps, run_cons]
    show run ⟨fs.dest, some []⟩ _ = _
    rw [run_temp_phase]
    simp
  refine ⟨?_, by rw [hrun]⟩
  intro x hx
  rw [tempRenameSaveOps, observations_cons] at hx
  rcases List.mem_cons.mp hx with h | h
  · exact Or.inl h
  · have := obs_temp_phase fs.dest [] chunks x (by simpa [applyOp] using h)
    rw [hrun]
    simpa using this

theorem run_dest_phase (d : List String) (t : Option (List String)) (chunks : List String) :
    run ⟨d, t⟩ (chunks.map Op.writeDest) = ⟨d ++ chunks, t⟩ := by
  induction chunks generalizing d with
  | nil => simp [run]
  | cons c tl ih =>
    rw [List.map_cons, run_cons]
    show run ⟨d ++ [c], t⟩ _ = _
    rw [ih (d ++ [c])]
    simp

theorem run_inPlace (fs : FS) (chunks : List String) :
    run fs (inPlaceSaveOps chunks) = ⟨chunks, fs.temp⟩ := by
  rw [inPlaceSaveOps, run_cons]
  show run ⟨[], fs.temp⟩ _ = _
  rw [run_dest_phase]
  simp

theorem dest_mem_observations (fs : FS) (ops : List Op) :
    fs.dest ∈ observations fs ops := by
  cases ops with
  | nil =>
    rw [observations_nil]
    exact List.mem_singleton.mpr rfl
  | cons o os =>
    rw [observations_cons]
    exact List.mem_cons_self _ _

/-- Right after the open with mode w truncates the destination, a reader of
the destination observes the empty file. -/
theorem empty_observable (fs : FS) (chunks : List String) :
    [] ∈ observations fs (inPlaceSaveOps chunks) := by
  rw [inPlaceSaveOps, observations_cons]
  exact List.mem_cons_of_mem _
    (dest_mem_observations (applyOp fs Op.openTruncDest) (chunks.map Op.writeDest))

/-- An in-place save of a non-empty dataset over a previously non-empty
destination is never atomic: the truncated observation is neither the
pre-save nor the post-save content. -/
theorem inPlaceSave_not_atomic (fs : FS) (chunks : List String)
    (hd : fs.dest ≠ []) (hc : chunks ≠ []) : ¬ atomic fs (inPlaceSaveOps chunks) := by
  intro h
  rcases h [] (empty_observable fs chunks) with he | he
  · exact hd he.symm
  · rw [run_inPlace] at he
    exact hc he.symm

end Save

namespace Retry

theorem av_error_header :
    "ERROR after " ++ toString MAX_RETRIES ++ " attempts: " = "ERROR after 3 attempts: " := by
  decide

theorem sc_error_header :
    "ERROR: Failed after " ++ toString MAX_RETRIES ++ " attempts: " =
      "ERROR: Failed after 3 attempts: " := by
  decide

theorem classify_vertical_all_fail (oc : Nat → AttemptOutcome)
    (h1 : (oc 1).isSuccess = false) (h2 : (oc 2).isSuccess = false)
    (h3 : (oc 3).isSuccess = false) :
    classify_vertical oc =
      { result := "ERROR after 3 attempts: " ++ excKind (oc 3) ++ ": " ++ excDetail (oc 3),
        attempts := 3, sleeps := [1, 2] } := by
  rcases e1 : oc 1 with _ | ⟨k, d⟩ | s <;>
    rcases e2 : oc 2 with _ | ⟨k2, d2⟩ | s2 <;>
    rcases e3 : oc 3 with _ | ⟨k3, d3⟩ | s3 <;>
    simp_all [classify_vertical, classify_vertical_loop, av_error_header, AttemptOutcome.isSuccess]

theorem classify_sub_vertical_all_fail (oc : Nat → AttemptOutcome)
    (h1 : (oc 1).isSuccess = false) (h2 : (oc 2).isSuccess = false)
    (h3 : (oc 3).isSuccess = false) :
    classify_sub_vertical oc =
      { result := svErrStr (oc 3), attempts := 3, sleeps := [1, 2] } := by
  rcases e1 : oc 1 with _ | ⟨k, d⟩ | s <;>
    rcases e2 : oc 2 with _ | ⟨k2, d2⟩ | s2 <;>
    rcases e3 : oc 3 with _ | ⟨k3, d3⟩ | s3 <;>
    simp_all [classify_sub_vertical, classify_sub_vertical_loop, AttemptOutcome.isSuccess]

theorem scoring_retry_all_fail (oc : Nat → AttemptOutcome)
    (h1 : (oc 1).isSuccess = false) (h2 : (oc 2).isSuccess = false)
    (h3 : (oc 3).isSuccess = false) :
    scoring_retry oc =
      { result := "ERROR: Failed after 3 attempts: " ++ excKind (oc 3) ++ ": " ++ excDetail (oc 3),
        attempts := 3, sleeps := [1, 2] } := by
  rcases e1 : oc 1 with _ | ⟨k, d⟩ | s <;>
    rcases e2 : oc 2 with _ | ⟨k2, d2⟩ | s2 <;>
    rcases e3 : oc 3 with _ | ⟨k3, d3⟩ | s3 <;>
    simp_all [scoring_retry, scoring_retry_loop, sc_error_header, AttemptOutcome.isSuccess]

theorem classify_vertical_schedule (oc : Nat → AttemptOutcome) :
    (classify_vertical oc).attempts ≤ MAX_RETRIES ∧
    1 ≤ (classify_vertical oc).attempts ∧
    (classify_vertical oc).sleeps =
      (List.range ((classify_vertical oc).attempts - 1)).map (fun i => 2 ^ i) := by
  rcases e1 : oc 1 with _ | ⟨k, d⟩ | s <;>
    rcases e2 : oc 2 with _ | ⟨k2, d2⟩ | s2 <;>
    rcases e3 : oc 3 with _ | ⟨k3, d3⟩ | s3 <;>
    simp_all [classify_vertical, classify_vertical_loop, MAX_RETRIES] <;>
    decide

theorem classify_vertical_two_fail_then_success (oc : Nat → AttemptOutcome)
    (h1 : (oc 1).isSuccess = false) (h2 : (oc 2).isSuccess = false)
    (s : String) (h3 : oc 3 = .success s) :
    classify_vertical oc = { result := pyStrip s, attempts := 3, sleeps := [1, 2] } := by
  rcases e1 : oc 1 with _ | ⟨k, d⟩ | s1 <;>
    rcases e2 : oc 2 with _ | ⟨k2, d2⟩ | s2 <;>
    simp_all [classify_vertical, classify_vertical_loop, av_error_header, AttemptOutcome.isSuccess]

theorem scoring_retry_two_fail_then_success (oc : Nat → AttemptOutcome)
    (h1 : (oc 1).isSuccess = false) (h2 : (oc 2).isSuccess = false)
    (s : String) (h3 : oc 3 = .success s) :
    scoring_retry oc = { result := pyStrip s, attempts := 3, sleeps := [1, 2] } := by
  rcases e1 : oc 1 with _ | ⟨k, d⟩ | s1 <;>
    rcases e2 : oc 2 with _ | ⟨k2, d2⟩ | s2 <;>
    simp_all [scoring_retry, scoring_retry_loop, sc_error_header, AttemptOutcome.isSuccess]

end Retry

namespace Dispatcher

theorem countP_set_some {α : Type} (f : α → Bool) (l : List α) (i : Nat) (a b : α)
    (h : l.get? i = some b) :
    (l.set i a).countP f + (if f b then 1 else 0) = l.countP f + (if f a then 1 else 0) := by
  induction l generalizing i with
  | nil => simp at h
  | cons c tl ih =>
    cases i with
    | zero =>
      simp only [List.get?] at h
      injection h with h
      subst h
      simp [List.countP_cons]
      omega
    | succ j =>
      simp only [List.get?] at h
      have := ih j h
      simp [List.countP_cons]
      omega

theorem countP_imp_le {α : Type} (f g : α → Bool) (l : List α)
    (h : ∀ a, f a = true → g a = true) : l.countP f ≤ l.countP g := by
  induction l with
  | nil => simp
  | cons c tl ih =>
    simp only [List.countP_cons]
    by_cases hc : f c = true
    · rw [if_pos hc, if_pos (h c hc)]
      omega
    · rw [if_neg hc]
      by_cases hg : g c = true
      · rw [if_pos hg]; omega
      · rw [if_neg hg]; omega

theorem holders_le_cap {cap n : Nat} {s : List Phase} (h : Reachable cap n s) :
    holders s ≤ cap := by
  induction h with
  | init =>
    have : holders (List.replicate n Phase.waiting) = 0 := by
      apply List.countP_eq_zero.mpr
      intro a ha
      rw [List.eq_of_mem_replicate ha]
      simp [holdsSlot]
    omega
  | @step u t hr hstep ih =>
    cases hstep with
    | acquire i hget hlt =>
      have := countP_set_some holdsSlot u i .holding .waiting hget
      simp [holdsSlot] at this
      unfold holders at hlt ⊢
      omega
    | issue i hget =>
      have := countP_set_some holdsSlot u i .inCall .holding hget
      simp [holdsSlot] at this
      unfold holders at ih ⊢
      omega
    | finish i ok hget =>
      have := countP_set_some holdsSlot u i .finished .inCall hget
      simp [holdsSlot] at this
      unfold holders at ih ⊢
      omega
    | release i hget =>
      have := countP_set_some holdsSlot u i .released .finished hget
      simp [holdsSlot] at this
      unfold holders at ih ⊢
      omega

theorem inFlight_le_holders (s : List Phase) : inFlight s ≤ holders s := by
  apply countP_imp_le
  intro a ha
  cases a <;> simp_all [isInCall, holdsSlot]

end Dispatcher

theorem mergeByKey_length (key : Row → String) (results rows : List Row) :
    (mergeByKey key results rows).length = rows.length := by
  simp [mergeByKey]

theorem mergeByKey_get_none (key : Row → String) (results rows : List Row)
    (i : Nat) (r : Row) (hr : rows.get? i = some r)
    (h : dictLookupLast key results (key r) = none) :
    (mergeByKey key results rows).get? i = some r := by
  unfold mergeByKey
  rw [List.get?_map, hr]
  simp [h]

theorem mergeByKey_get_some (key : Row → String) (results rows : List Row)
    (i : Nat) (r pr : Row) (hr : rows.get? i = some r)
    (h : dictLookupLast key results (key r) = some pr) :
    (mergeByKey key results rows).get? i = some pr := by
  unfold mergeByKey
  rw [List.get?_map, hr]
  simp [h]

theorem mergeByKey_nil (key : Row → String) (rows : List Row) :
    mergeByKey key [] rows = rows := by
  simp [mergeByKey, dictLookupLast]

theorem get?_zip_eq_some {α β : Type} {l1 : List α} {l2 : List β} {i : Nat} {a : α} {b : β}
    (h1 : l1.get? i = some a) (h2 : l2.get? i = some b) :
    (l1.zip l2).get? i = some (a, b) := by
  induction l1 generalizing l2 i with
  | nil => simp at h1
  | cons c tl ih =>
    cases l2 with
    | nil => simp at h2
    | cons d tl2 =>
      cases i with
      | zero =>
        simp only [List.get?] at h1 h2
        injection h1 with h1
        injection h2 with h2
        simp [List.zip, h1, h2]
      | succ j =>
        simp only [List.get?] at h1 h2 ⊢
        simpa [List.zip] using ih h1 h2

namespace AssignVert

theorem results_all_error (rows : List Row) (oc : Row → Except String String)
    (h : ∀ w, ∃ e, oc w = .error e) : results rows oc = [] := by
  unfold results gatherDicts runTasks
  induction rows_to_process rows with
  | nil => simp
  | cons w tl ih =>
    obtain ⟨e, he⟩ := h w
    simp [he, ih]

theorem av_mem_results (rows : List Row) (oc : Row → Except String String)
    (pr : Row) (h : pr ∈ results rows oc) :
    ∃ w, w ∈ rows_to_process rows ∧ ∃ v, oc w = .ok v ∧ pr = rset w VERTICAL_COL v := by
  unfold results gatherDicts runTasks at h
  rw [List.mem_filterMap] at h
  obtain ⟨g, hg, hsome⟩ := h
  rw [List.mem_map] at hg
  obtain ⟨w, hw, hgw⟩ := hg
  refine ⟨w, hw, ?_⟩
  rcases ho : oc w with e | v
  · rw [ho] at hgw
    subst hgw
    simp at hsome
  · rw [ho] at hgw
    subst hgw
    simp at hsome
    exact ⟨v, rfl, hsome.symm⟩

end AssignVert

namespace SubVertical

theorem stage_length (rows : List Row) (oc : Row → Except String String) :
    (stage rows oc).length = rows.length := by
  simp [stage]

theorem sv_mem_results (rows : List Row) (oc : Row → Except String String)
    (pr : Row) (h : pr ∈ results rows oc) :
    ∃ w, w ∈ rows_to_process rows ∧ ∃ v, oc w = .ok v ∧ pr = rset w SUB_VERTICAL_COL v := by
  unfold results runTasks at h
  rw [List.mem_filterMap] at h
  obtain ⟨g, hg, hsome⟩ := h
  rw [List.mem_map] at hg
  obtain ⟨w, hw, hgw⟩ := hg
  refine ⟨w, hw, ?_⟩
  rcases ho : oc w with e | v
  · rw [ho] at hgw
    subst hgw
    simp at hsome
  · rw [ho] at hgw
    subst hgw
    simp at hsome
    exact ⟨v, rfl, hsome.symm⟩

end SubVertical

namespace CleanUrls

theorem http_check : HTTP = "http://".data := by decide

theorem https_check : HTTPS = "https://".data := by decide

theorem http_isPrefixOf_append (n : List Char) : HTTP.isPrefixOf (HTTP ++ n) = true := by
  rw [List.isPrefixOf_iff_prefix]
  exact List.prefix_append _ _

theorem https_isPrefixOf_append (n : List Char) : HTTPS.isPrefixOf (HTTPS ++ n) = true := by
  rw [List.isPrefixOf_iff_prefix]
  exact List.prefix_append _ _

theorem http_not_isPrefixOf_https (n : List Char) :
    HTTP.isPrefixOf (HTTPS ++ n) = false := rfl

theorem drop_http (n : List Char) : (HTTP ++ n).drop 7 = n := by
  rw [show (7 : Nat) = HTTP.length from rfl, List.drop_left]

theorem drop_https (n : List Char) : (HTTPS ++ n).drop 8 = n := by
  rw [show (8 : Nat) = HTTPS.length from rfl, List.drop_left]

theorem removeUnsafe_http (n : List Char) (h : ∀ c ∈ n, urlSafeChar c = true) :
    removeUnsafe (HTTP ++ n) = HTTP ++ n := by
  unfold removeUnsafe
  rw [List.filter_append]
  rw [List.filter_eq_self.mpr h]
  rfl

theorem removeUnsafe_https (n : List Char) (h : ∀ c ∈ n, urlSafeChar c = true) :
    removeUnsafe (HTTPS ++ n) = HTTPS ++ n := by
  unfold removeUnsafe
  rw [List.filter_append]
  rw [List.filter_eq_self.mpr h]
  rfl

/-- Inversion of a successful parse: the scheme is one of the two literal
prefixes and the netloc contains no delimiter, no unsafe character and no
unmatched bracket. -/
theorem urlsplit_fragment_inv {url : String} {pre n rest : List Char}
    (h : urlsplit_fragment url = some (pre, n, rest)) :
    (pre = HTTP ∨ pre = HTTPS) ∧ (∀ c ∈ n, notDelim c = true) ∧
      (∀ c ∈ n, urlSafeChar c = true) ∧ bracketMismatch n = false := by
  unfold urlsplit_fragment at h
  by_cases h1 : HTTP.isPrefixOf (removeUnsafe url.data) = true
  · simp only [h1, if_true] at h
    by_cases hb : bracketMismatch (((removeUnsafe url.data).drop 7).takeWhile notDelim) = true
    · simp [hb] at h
    · simp only [hb, Bool.false_eq_true, if_false, Option.some.injEq, Prod.mk.injEq] at h
      obtain ⟨hpre, hn, hrest⟩ := h
      subst hpre
      subst hn
      refine ⟨Or.inl rfl, fun c hc => List.mem_takeWhile_imp hc, fun c hc => ?_, by simpa using hb⟩
      have hc2 : c ∈ removeUnsafe url.data :=
        List.mem_of_mem_drop (List.takeWhile_subset _ hc)
      exact (List.mem_filter.mp hc2).2
  · simp only [Bool.not_eq_true] at h1
    simp only [h1, Bool.false_eq_true, if_false] at h
    by_cases h2 : HTTPS.isPrefixOf (removeUnsafe url.data) = true
    · simp only [h2, if_true] at h
      by_cases hb : bracketMismatch (((removeUnsafe url.data).drop 8).takeWhile notDelim) = true
      · simp [hb] at h
      · simp only [hb, Bool.false_eq_true, if_false, Option.some.injEq, Prod.mk.injEq] at h
        obtain ⟨hpre, hn, hrest⟩ := h
        subst hpre
        subst hn
        refine ⟨Or.inr rfl, fun c hc => List.mem_takeWhile_imp hc, fun c hc => ?_,
          by simpa using hb⟩
        have hc2 : c ∈ removeUnsafe url.data :=
          List.mem_of_mem_drop (List.takeWhile_subset _ hc)
        exact (List.mem_filter.mp hc2).2
    · simp only [Bool.not_eq_true] at h2
      simp [h1, h2] at h

/-- Reparsing a rebuilt scheme://netloc result: the same netloc comes back
with an empty remainder. -/
theorem urlsplit_fragment_rebuilt {pre n : List Char}
    (hpre : pre = HTTP ∨ pre = HTTPS)
    (hnd : ∀ c ∈ n, notDelim c = true)
    (hns : ∀ c ∈ n, urlSafeChar c = true)
    (hb : bracketMismatch n = false) :
    urlsplit_fragment ⟨pre ++ n⟩ = some (pre, n, []) := by
  have htw : n.takeWhile notDelim = n := List.takeWhile_eq_self_iff.mpr hnd
  have hdw : n.dropWhile notDelim = [] := List.dropWhile_eq_nil_iff.mpr hnd
  rcases hpre with hpre | hpre <;> subst hpre
  · unfold urlsplit_fragment
    simp only [String.data]
    rw [removeUnsafe_http n hns]
    simp only [http_isPrefixOf_append, if_true, drop_http, htw, hdw, hb, Bool.false_eq_true,
      if_false]
  · unfold urlsplit_fragment
    simp only [String.data]
    rw [removeUnsafe_https n hns]
    simp only [http_not_isPrefixOf_https, Bool.false_eq_true, if_false,
      https_isPrefixOf_append, if_true, drop_https, htw, hdw, hb]

end CleanUrls

namespace WebParser

theorem parse_info_keys (info : String) :
    (parse_info info).map Prod.fst = CATEGORIES := by
  unfold parse_info
  split <;>
    · rw [List.map_map]
      exact List.map_id CATEGORIES

theorem findRest_none_of_all_space {d l : List Char}
    (h : ∀ c ∈ l, isPySpace c = true) : findRest (d ++ [':']) l = none := by
  induction l with
  | nil =>
    simp [findRest]
  | cons c tl ih =>
    have hc : isPySpace c = true := h c (List.mem_cons_self c tl)
    have htl : ∀ x ∈ tl, isPySpace x = true := fun x hx => h x (List.mem_cons_of_mem c hx)
    simp only [findRest]
    have hnp : ¬ (d ++ [':']).isPrefixOf (c :: tl) := by
      intro hp
      have hmem : ':' ∈ c :: tl := by
        have hsub := (List.isPrefixOf_iff_prefix.mp hp).sublist
        exact hsub.mem (by simp)
      have : isPySpace ':' = true := h ':' hmem
      simp [isPySpace] at this
    simp [hnp, ih htl]

theorem category_value_not_found (cat : String) (text : String)
    (h : findRest (cat.data ++ [':']) text.data = none) :
    category_value cat text = "N/A" := by
  unfold category_value
  simp [h]

end WebParser

namespace CleanUrls

theorem prefixed_hasPrefix (t : String) :
    HTTP.isPrefixOf (prefixed t).data = true ∨ HTTPS.isPrefixOf (prefixed t).data = true := by
  unfold prefixed
  by_cases h : (HTTP.isPrefixOf t.data || HTTPS.isPrefixOf t.data) = true
  · rw [if_pos h]
    exact Bool.or_eq_true_iff.mp h
  · rw [if_neg h]
    right
    exact https_isPrefixOf_append t.data

theorem prefixed_of_hasPrefix {r : String}
    (h : HTTP.isPrefixOf r.data = true ∨ HTTPS.isPrefixOf r.data = true) :
    prefixed r = r := by
  unfold prefixed
  rcases h with h | h <;> simp [h]

theorem prefixed_ne_nil {t : String} (ht : t.data ≠ []) : (prefixed t).data ≠ [] := by
  unfold prefixed
  split
  · exact ht
  · simp [HTTPS]

theorem clean_url_reclean {u r : String} (h : clean_url u = some r) (hs : pyStrip r = r) :
    clean_url r = some r := by
  simp only [clean_url] at h
  by_cases hemp : (pyStrip u).data.isEmpty = true
  · rw [if_pos hemp] at h
    have hr : pyStrip u = r := Option.some.inj h
    have hre : (pyStrip r).data.isEmpty = true := by rw [hs, ← hr]; exact hemp
    simp only [clean_url]
    rw [if_pos hre, hs]
  · rw [if_neg hemp] at h
    rcases hsp : urlsplit_fragment (prefixed (pyStrip u)) with _ | ⟨pre, n, rest⟩
    · rw [hsp] at h
      simp at h
    · rw [hsp] at h
      simp only at h
      by_cases hn : n.isEmpty = true
      · rw [if_pos hn] at h
        have hr : prefixed (pyStrip u) = r := Option.some.inj h
        have hpre := prefixed_hasPrefix (pyStrip u)
        rw [hr] at hpre
        have hrne : r.data ≠ [] := by
          rw [← hr]
          exact prefixed_ne_nil (by simpa using hemp)
        simp only [clean_url]
        rw [hs, if_neg (by simpa using hrne), prefixed_of_hasPrefix hpre, ← hr, hsp]
        simp only
        rw [if_pos hn, hr]
      · rw [if_neg hn] at h
        have hr : (⟨pre ++ n⟩ : String) = r := Option.some.inj h
        obtain ⟨hpre, hnd, hns, hb⟩ := urlsplit_fragment_inv hsp
        have hrd : r.data = pre ++ n := by rw [← hr]
        have hrne : r.data ≠ [] := by
          rw [hrd]
          rcases hpre with hh | hh <;> subst hh <;> simp [HTTP, HTTPS]
        simp only [clean_url]
        rw [hs, if_neg (by simpa using hrne)]
        have hpf : HTTP.isPrefixOf r.data = true ∨ HTTPS.isPrefixOf r.data = true := by
          rw [hrd]
          rcases hpre with hh | hh <;> subst hh
          · exact Or.inl (http_isPrefixOf_append n)
          · exact Or.inr (https_isPrefixOf_append n)
        have hsp2 : urlsplit_fragment r = some (pre, n, []) := by
          rw [← hr]
          exact urlsplit_fragment_rebuilt hpre hnd hns hb
        rw [prefixed_of_hasPrefix hpf, hsp2]
        simp only
        rw [if_neg hn, hr]

theorem data_isEmpty_iff (s : String) : s.data.isEmpty = true ↔ s = "" := by
  rw [List.isEmpty_iff]
  constructor
  · intro h
    cases s
    simp_all
  · intro h
    subst h
    rfl

theorem clean_url_result_scheme {u r : String} (h : clean_url u = some r)
    (hne : pyStrip u ≠ "") :
    HTTP.isPrefixOf r.data = true ∨ HTTPS.isPrefixOf r.data = true := by
  simp only [clean_url] at h
  have hemp : ¬ (pyStrip u).data.isEmpty = true := by
    rw [data_isEmpty_iff]
    exact hne
  rw [if_neg hemp] at h
  rcases hsp : urlsplit_fragment (prefixed (pyStrip u)) with _ | ⟨pre, n, rest⟩
  · rw [hsp] at h
    simp at h
  · rw [hsp] at h
    simp only at h
    by_cases hn : n.isEmpty = true
    · rw [if_pos hn] at h
      have hr : prefixed (pyStrip u) = r := Option.some.inj h
      rw [← hr]
      exact prefixed_hasPrefix (pyStrip u)
    · rw [if_neg hn] at h
      have hr : (⟨pre ++ n⟩ : String) = r := Option.some.inj h
      obtain ⟨hpre, _, _, _⟩ := urlsplit_fragment_inv hsp
      have hrd : r.data = pre ++ n := by rw [← hr]
      rw [hrd]
      rcases hpre with hh | hh <;> subst hh
      · exact Or.inl (http_isPrefixOf_append n)
      · exact Or.inr (https_isPrefixOf_append n)

theorem clean_url_parse_exact {u r : String} {pre n rest : List Char}
    (h : clean_url u = some r) (hp : urlsplit_fragment r = some (pre, n, rest))
    (hn : n ≠ []) : r.data = pre ++ n ∧ rest = [] := by
  simp only [clean_url] at h
  by_cases hemp : (pyStrip u).data.isEmpty = true
  · rw [if_pos hemp] at h
    have hr : pyStrip u = r := Option.some.inj h
    have hrd : r.data = [] := by
      rw [← hr]
      exact List.isEmpty_iff.mp hemp
    have : urlsplit_fragment r = none := by
      unfold urlsplit_fragment
      rw [hrd]
      rfl
    rw [this] at hp
    exact absurd hp (by simp)
  · rw [if_neg hemp] at h
    rcases hsp : urlsplit_fragment (prefixed (pyStrip u)) with _ | ⟨pre2, n2, rest2⟩
    · rw [hsp] at h
      simp at h
    · rw [hsp] at h
      simp only at h
      by_cases hn2 : n2.isEmpty = true
      · rw [if_pos hn2] at h
        have hr : prefixed (pyStrip u) = r := Option.some.inj h
        rw [hr] at hsp
        rw [hsp] at hp
        obtain ⟨he1, he2, he3⟩ : pre2 = pre ∧ n2 = n ∧ rest2 = rest := by
          have := Option.some.inj hp
          simpa using this
        subst he2
        exact absurd (List.isEmpty_iff.mp hn2) hn
      · rw [if_neg hn2] at h
        have hr : (⟨pre2 ++ n2⟩ : String) = r := Option.some.inj h
        obtain ⟨hpre2, hnd2, hns2, hb2⟩ := urlsplit_fragment_inv hsp
        have hsp2 : urlsplit_fragment r = some (pre2, n2, []) := by
          rw [← hr]
          exact urlsplit_fragment_rebuilt hpre2 hnd2 hns2 hb2
        rw [hsp2] at hp
        obtain ⟨he1, he2, he3⟩ : pre2 = pre ∧ n2 = n ∧ ([] : List Char) = rest := by
          have := Option.some.inj hp
          simpa using this
        subst he1
        subst he2
        refine ⟨by rw [← hr], he3.symm⟩

end CleanUrls

/- ## Shared helper lemmas for the claim theorems. -/

theorem substrOccurs_append_left (ndl a b : String) (h : substrOccurs ndl a = true) :
    substrOccurs ndl (a ++ b) = true := by
  unfold substrOccurs at h ⊢
  rw [String.data_append]
  exact findRest_isSome_append b.data h

theorem findRest_isSome_of_append_pat {p q l : List Char}
    (h : (findRest (p ++ q) l).isSome = true) : (findRest p l).isSome = true := by
  induction l with
  | nil =>
    simp only [findRest] at h ⊢
    split at h
    · next hp =>
      have hq : p ++ q = [] := List.prefix_nil.mp (List.isPrefixOf_iff_prefix.mp hp)
      have hp2 : p = [] := (List.append_eq_nil.mp hq).1
      simp [hp2, List.isPrefixOf_iff_prefix]
    · simp at h
  | cons c tl ih =>
    simp only [findRest] at h ⊢
    by_cases hp : (p ++ q).isPrefixOf (c :: tl) = true
    · have hpfx : p.isPrefixOf (c :: tl) = true := by
        rw [List.isPrefixOf_iff_prefix] at hp ⊢
        exact (List.prefix_append p q).trans hp
      simp [hpfx]
    · rw [if_neg hp] at h
      by_cases hq : p.isPrefixOf (c :: tl) = true
      · simp [hq]
      · rw [if_neg hq]
        exact ih h

theorem svErrStr_contains_error (o : Retry.AttemptOutcome) (h : o.isSuccess = false) :
    substrOccurs "ERROR" (Retry.svErrStr o) = true := by
  cases o with
  | timeout => decide
  | failure k d =>
    show substrOccurs "ERROR" ("ERROR: " ++ d) = true
    exact substrOccurs_append_left "ERROR" "ERROR: " d (by decide)
  | success s => simp [Retry.AttemptOutcome.isSuccess] at h

/- ## The claims. -/

/-- Claim C1, counterexample: the per-row save of the website-info stage
(website_info_perplexity.py lines 88-92, also the save shape of scoring.py
lines 179-182) opens the destination file itself for writing, so a reader
can observe the truncated file, which is neither the pre-save nor the
post-save content: the save is not atomic. -/
theorem spec_c1_counterexample :
    ¬ Save.atomic ⟨["old header", "old row"], none⟩
        (Save.inPlaceSaveOps ["new header", "new row"]) := by
  decide

/-- Claim C1 (amended): the saves that go through a temporary file — the
per-row and final saves of assign_vert.py (lines 116-122 and 142-148),
company_type.py's final save (lines 161-167) and sub_vertical.py's
save_progress and save_final — are atomic: the full dataset is written to
a temporary file created in the destination directory and renamed over
the destination, so every observable content of the destination path is
either the pre-save content or the complete post-save content.  But every
in-place save — the website-info per-row save, the scoring saves, and
company_type.py's empty-work-list rewrite of the output at lines 110-116
— truncates the destination itself: whenever the prior file and the new
dataset are non-empty, a reader can observe content that is neither the
pre-save nor the post-save version, so none of those saves is atomic. -/
theorem spec_c1_amended (fs : Save.FS) (chunks : List String) :
    (Save.atomic fs (Save.tempRenameSaveOps chunks) ∧
      (Save.run fs (Save.tempRenameSaveOps chunks)).dest = chunks) ∧
      ((Save.run fs (Save.inPlaceSaveOps chunks)).dest = chunks) ∧
      (fs.dest ≠ [] → chunks ≠ [] → ¬ Save.atomic fs (Save.inPlaceSaveOps chunks)) :=
  ⟨Save.tempRenameSave_atomic fs chunks,
   by rw [Save.run_inPlace],
   fun hd hc => Save.inPlaceSave_not_atomic fs chunks hd hc⟩

/-- Claim C1, witness of the amended theorem at a concrete pre-content and
dataset. -/
theorem spec_c1_witness :
    Save.atomic ⟨["pre"], none⟩ (Save.tempRenameSaveOps ["h", "r"]) ∧
      ¬ Save.atomic ⟨["pre"], none⟩ (Save.inPlaceSaveOps ["h", "r"]) := by
  have h := spec_c1_amended ⟨["pre"], none⟩ ["h", "r"]
  exact ⟨h.1.1, h.2.2 (by decide) (by decide)⟩

/-- Claim C2, counterexample: a sub_vertical.py classifier whose every
attempt times out performs exactly MAX_RETRIES attempts but returns the
plain string ERROR: timeout, which is not of the form ERROR after N
attempts and does not contain the attempt count 3. -/
theorem spec_c2_counterexample :
    Retry.classify_sub_vertical (fun _ => Retry.AttemptOutcome.timeout) =
        { result := "ERROR: timeout", attempts := 3, sleeps := [1, 2] } ∧
      substrOccurs "3" "ERROR: timeout" = false ∧
      substrOccurs "after 3 attempts" "ERROR: timeout" = false := by
  refine ⟨by decide, by decide, by decide⟩

/-- Claim C2 (amended): when every attempt fails, both retry wrappers
perform exactly MAX_RETRIES = 3 attempts and return (never raise);
assign_vert.py returns the string ERROR after 3 attempts: kind: detail,
which contains the substrings ERROR and 3, while sub_vertical.py returns
only ERROR: detail for the final attempt, which contains ERROR but not the
attempt count. -/
theorem spec_c2_amended (oc : Nat → Retry.AttemptOutcome)
    (h1 : (oc 1).isSuccess = false) (h2 : (oc 2).isSuccess = false)
    (h3 : (oc 3).isSuccess = false) :
    Retry.classify_vertical oc =
        { result := "ERROR after 3 attempts: " ++ Retry.excKind (oc 3) ++ ": " ++
            Retry.excDetail (oc 3),
          attempts := 3, sleeps := [1, 2] } ∧
      substrOccurs "ERROR" (Retry.classify_vertical oc).result = true ∧
      substrOccurs "3" (Retry.classify_vertical oc).result = true ∧
      Retry.classify_sub_vertical oc =
        { result := Retry.svErrStr (oc 3), attempts := 3, sleeps := [1, 2] } ∧
      substrOccurs "ERROR" (Retry.classify_sub_vertical oc).result = true := by
  have hav := Retry.classify_vertical_all_fail oc h1 h2 h3
  have hsv := Retry.classify_sub_vertical_all_fail oc h1 h2 h3
  refine ⟨hav, ?_, ?_, hsv, ?_⟩
  · rw [hav]
    exact substrOccurs_append_left _ _ _
      (substrOccurs_append_left _ _ _
        (substrOccurs_append_left _ _ _ (by decide)))
  · rw [hav]
    exact substrOccurs_append_left _ _ _
      (substrOccurs_append_left _ _ _
        (substrOccurs_append_left _ _ _ (by decide)))
  · rw [hsv]
    exact svErrStr_contains_error (oc 3) h3

/-- Claim C2, witness of the amended theorem at a concrete always-failing
oracle. -/
theorem spec_c2_witness :
    Retry.classify_vertical (fun _ => Retry.AttemptOutcome.failure "RuntimeError" "boom") =
        { result := "ERROR after 3 attempts: RuntimeError: boom", attempts := 3,
          sleeps := [1, 2] } ∧
      Retry.classify_sub_vertical (fun _ => Retry.AttemptOutcome.failure "RuntimeError" "boom") =
        { result := "ERROR: boom", attempts := 3, sleeps := [1, 2] } := by
  have h := spec_c2_amended (fun _ => Retry.AttemptOutcome.failure "RuntimeError" "boom")
    rfl rfl rfl
  constructor
  · rw [h.1]
    decide
  · rw [h.2.2.2.1]
    decide

/-- Claim C3: under the semaphore discipline of the dispatcher, for every
work list size, every concurrency cap and every reachable scheduler state,
the number of classifier calls in flight never exceeds the cap; a task can
only issue its call while holding a slot, and the release step is enabled
after the call ends on success and failure alike. -/
theorem spec_c3_theorem (cap n : Nat) (s : List Dispatcher.Phase)
    (h : Dispatcher.Reachable cap n s) : Dispatcher.inFlight s ≤ cap :=
  le_trans (Dispatcher.inFlight_le_holders s) (Dispatcher.holders_le_cap h)

/-- Claim C3, witness: a work list of size 2*C with C = 2, after acquiring
and issuing one call. -/
theorem spec_c3_witness :
    Dispatcher.inFlight
      [Dispatcher.Phase.inCall, Dispatcher.Phase.waiting,
       Dispatcher.Phase.waiting, Dispatcher.Phase.waiting] ≤ 2 :=
  spec_c3_theorem 2 4 _
    (Dispatcher.Reachable.step
      (Dispatcher.Reachable.step Dispatcher.Reachable.init
        (Dispatcher.Step.acquire _ 0 rfl (by decide)))
      (Dispatcher.Step.issue _ 0 rfl))

/-- Claim C4, counterexample: in assign_vert.py a task that raises is
dropped at the dispatcher boundary (line 133 keeps only dict results), so
for a batch of one eligible row whose task raises, the row's output column
stays empty instead of receiving an error string. -/
theorem spec_c4_counterexample :
    rget ((AssignVert.stage
        [[("URL", "u1"), ("Vertical", ""), ("Company Type", "Distributor")]]
        (fun _ => Except.error "RuntimeError: boom")).headD []) "Vertical" = "" ∧
      substrOccurs "ERROR" "" = false := by
  refine ⟨by decide, by decide⟩

/-- Claim C4 (amended): a task exception is captured at the dispatcher
boundary and never terminates siblings or the dispatcher, and every row
stays present in the final output; in company_type.py the exception is
converted into an ERROR string in that row's output column and sibling
results are untouched, while in assign_vert.py the failed task's result is
discarded at the merge and the row keeps its prior output value. -/
theorem spec_c4_amended (rows work : List Row) (gathered : List (Except String Row))
    (i : Nat) (w : Row) (e : String)
    (hw : work.get? i = some w) (hg : gathered.get? i = some (Except.error e)) :
    ((CompanyType.normalize_gathered work gathered).get? i =
        some (rset w CompanyType.CT_COL ("ERROR: " ++ e))) ∧
      (∀ j r g, work.get? j = some r → gathered.get? j = some (Except.ok g) →
        (CompanyType.normalize_gathered work gathered).get? j = some g) ∧
      ((CompanyType.dispatch_merge rows work gathered).length = rows.length) ∧
      (∀ (rows2 : List Row) (oc : Row → Except String String),
        (∀ w2, ∃ e2, oc w2 = Except.error e2) → AssignVert.stage rows2 oc = rows2) := by
  refine ⟨?_, ?_, ?_, ?_⟩
  · unfold CompanyType.normalize_gathered
    rw [List.get?_map, get?_zip_eq_some hw hg]
    rfl
  · intro j r g hwj hgj
    unfold CompanyType.normalize_gathered
    rw [List.get?_map, get?_zip_eq_some hwj hgj]
    rfl
  · exact mergeByKey_length _ _ _
  · intro rows2 oc hoc
    unfold AssignVert.stage
    rw [AssignVert.results_all_error rows2 oc hoc, mergeByKey_nil]

/-- Claim C4, witness of the amended theorem at a one-row batch whose task
raised. -/
theorem spec_c4_witness :
    ((CompanyType.normalize_gathered [[("Company name", "Acme")]]
        [Except.error "boom"]).get? 0 =
        some (rset [("Company name", "Acme")] CompanyType.CT_COL ("ERROR: " ++ "boom"))) ∧
      ((CompanyType.dispatch_merge [[("Company name", "Acme")]]
        [[("Company name", "Acme")]] [Except.error "boom"]).length = 1) := by
  have h := spec_c4_amended [[("Company name", "Acme")]] [[("Company name", "Acme")]]
    [Except.error "boom"] 0 [("Company name", "Acme")] "boom" rfl rfl
  exact ⟨h.1, h.2.2.1⟩

/-- Claim C5, counterexample: in assign_vert.py an eligibility-failing row
is skipped without any write (lines 69-79), so a row whose Vertical column
holds a blank-but-non-empty value and whose Company Type is outside the
allow-list comes out of the stage with its original one-space value, not
with the empty string the claim says is written. -/
theorem spec_c5_counterexample :
    rget ((AssignVert.stage
        [[("URL", "u2"), ("Vertical", " "), ("Company Type", "Producer")]]
        (fun _ => Except.ok "X")).headD []) "Vertical" = " " ∧
      (" " : String) ≠ "" := by
  refine ⟨by decide, by decide⟩

/-- Claim C5 (amended): in company_type.py a row failing the eligibility
prerequisite (sentinel business model, no recorded classification) has the
empty string written into its output column, is excluded from the work
list, and on any subsequent pass is again never enqueued; in assign_vert.py
an eligibility-failing row is merely excluded from the work list with no
write (its output column keeps its prior blank value), and since the
eligibility predicate is a pure function of the unchanged row it is never
enqueued on a subsequent pass either. -/
theorem spec_c5_amended (existing : List (String × String)) (rows : List Row)
    (i : Nat) (r : Row) (hr : rows.get? i = some r)
    (hm : CompanyType.decide_row existing r = CompanyType.Decision.markEmpty) :
    ((CompanyType.prepare existing rows).1.get? i =
        some (rset r CompanyType.CT_COL "")) ∧
      (r ∉ (CompanyType.prepare existing rows).2) ∧
      (rget (rset r CompanyType.CT_COL "") CompanyType.CT_COL = "") ∧
      (∀ existing2, CompanyType.decide_row existing2 (rset r CompanyType.CT_COL "") ≠
        CompanyType.Decision.enqueue) ∧
      (∀ (rows2 : List Row) (r2 : Row), AssignVert.eligible r2 = false →
        r2 ∉ AssignVert.rows_to_process rows2) := by
  have hbm : CompanyType.bmSentinel r = true := by
    unfold CompanyType.decide_row at hm
    split at hm
    · split_ifs at hm with hv hb
      exact hb
    · split_ifs at hm with hb
      exact hb
  have hbm2 : CompanyType.bmSentinel (rset r CompanyType.CT_COL "") = true := by
    unfold CompanyType.bmSentinel at hbm ⊢
    rw [rget_rset_ne r "" (by decide)]
    exact hbm
  refine ⟨?_, ?_, rget_rset_self r _ "", ?_, ?_⟩
  · unfold CompanyType.prepare
    rw [List.get?_map, hr]
    simp [hm, CompanyType.apply_decision]
  · intro hmem
    unfold CompanyType.prepare at hmem
    have := (List.mem_filter.mp hmem).2
    rw [hm] at this
    exact absurd this (by decide)
  · intro existing2 hq
    unfold CompanyType.decide_row at hq
    split at hq
    · split_ifs at hq with hv
    · split_ifs at hq
  · intro rows2 r2 hel hmem
    have := (List.mem_filter.mp hmem).2
    rw [hel] at this
    exact absurd this (by decide)

/-- Claim C5, witness of the amended theorem at a one-row dataset with a
sentinel business model. -/
theorem spec_c5_witness :
    ((CompanyType.prepare [] [[("Company name", "A"), ("BUSINESS_MODEL", "N/A")]]).1.get? 0 =
        some (rset [("Company name", "A"), ("BUSINESS_MODEL", "N/A")]
          CompanyType.CT_COL "")) ∧
      ([("Company name", "A"), ("BUSINESS_MODEL", "N/A")] ∉
        (CompanyType.prepare [] [[("Company name", "A"), ("BUSINESS_MODEL", "N/A")]]).2) := by
  have h := spec_c5_amended [] [[("Company name", "A"), ("BUSINESS_MODEL", "N/A")]] 0
    [("Company name", "A"), ("BUSINESS_MODEL", "N/A")] rfl (by decide)
  exact ⟨h.1, h.2.1⟩

/-- Claim C6, counterexample: with two rows sharing the same URL key, one
already classified and one eligible, the assign_vert.py merge replaces the
already-classified row with the processed row's content, so its previously
non-empty Vertical value X does not survive the re-run. -/
theorem spec_c6_counterexample :
    (AssignVert.stage
        [[("URL", "u"), ("Vertical", "X"), ("Company Type", "Distributor")],
         [("URL", "u"), ("Vertical", ""), ("Company Type", "Distributor")]]
        (fun _ => Except.ok "V1")).map (fun r => rget r "Vertical") = ["V1", "V1"] ∧
      rget ([("URL", "u"), ("Vertical", "X"), ("Company Type", "Distributor")] : Row)
        "Vertical" = "X" ∧
      ("V1" : String) ≠ "X" := by
  refine ⟨by decide, by decide, by decide⟩

/-- Claim C6 (amended): provided the stage's key values are pairwise
distinct across the dataset, every row whose output column already strips
to a non-empty value is excluded from the work list, receives no
classifier call, and is returned unchanged by assign_vert.py; likewise a
sub_vertical.py row with non-empty output is never in its work list, and a
scoring.py row with non-empty Score is returned unchanged with no call. -/
theorem spec_c6_amended (rows : List Row) (oc : Row → Except String String)
    (hnd : (rows.map AssignVert.urlKey).Nodup)
    (i : Nat) (r : Row) (hr : rows.get? i = some r)
    (hv : pyStrip (rget r AssignVert.VERTICAL_COL) ≠ "") :
    ((AssignVert.stage rows oc).get? i = some r) ∧
      (r ∉ AssignVert.rows_to_process rows) ∧
      (∀ (rows2 : List Row) (r2 : Row),
        pyStrip (rget r2 SubVertical.SUB_VERTICAL_COL) ≠ "" →
        r2 ∉ SubVertical.rows_to_process rows2) ∧
      (∀ r3 : Row, pyStrip (rget r3 Scoring.SCORE_COL) ≠ "" →
        Scoring.process_row_skip r3 = (r3, false)) := by
  have helig : AssignVert.eligible r = false := by
    unfold AssignVert.eligible
    have hb : (pyStrip (rget r AssignVert.VERTICAL_COL) == "") = false := by
      rw [beq_eq_false_iff_ne]
      exact hv
    rw [hb]
    rfl
  have hmemr : r ∈ rows := List.get?_mem hr
  refine ⟨?_, ?_, ?_, ?_⟩
  · apply mergeByKey_get_none _ _ _ i r hr
    rcases hfind : dictLookupLast AssignVert.urlKey (AssignVert.results rows oc)
        (AssignVert.urlKey r) with _ | pr
    · rfl
    · exfalso
      unfold dictLookupLast at hfind
      have hkey : (AssignVert.urlKey pr == AssignVert.urlKey r) = true := by
        have hx := List.find?_some hfind
        simpa using hx
      have hprmem : pr ∈ AssignVert.results rows oc :=
        List.mem_reverse.mp (List.mem_of_find?_eq_some hfind)
      obtain ⟨w, hwmem, v, hov, hpr⟩ := AssignVert.av_mem_results rows oc pr hprmem
      have hwrows : w ∈ rows := (List.mem_filter.mp hwmem).1
      have hwelig : AssignVert.eligible w = true := (List.mem_filter.mp hwmem).2
      have hkw : AssignVert.urlKey pr = AssignVert.urlKey w := by
        rw [hpr]
        unfold AssignVert.urlKey
        rw [rget_rset_ne w v (by decide)]
      have hkeq : AssignVert.urlKey w = AssignVert.urlKey r := by
        rw [← hkw]
        exact beq_iff_eq.mp hkey
      have hwr : w = r := List.inj_on_of_nodup_map hnd hwrows hmemr hkeq
      rw [hwr, helig] at hwelig
      exact Bool.false_ne_true hwelig
  · intro hmem
    have := (List.mem_filter.mp hmem).2
    rw [helig] at this
    exact Bool.false_ne_true this
  · intro rows2 r2 hv2 hmem
    have hel2 := (List.mem_filter.mp hmem).2
    unfold SubVertical.eligible at hel2
    have hb2 : (pyStrip (rget r2 SubVertical.SUB_VERTICAL_COL) == "") = false := by
      rw [beq_eq_false_iff_ne]
      exact hv2
    rw [hb2] at hel2
    simp at hel2
  · intro r3 hv3
    unfold Scoring.process_row_skip
    rw [if_neg hv3]

/-- Claim C6, witness of the amended theorem: a two-row dataset with
distinct URLs whose first row is already classified. -/
theorem spec_c6_witness :
    ((AssignVert.stage
        [[("URL", "u1"), ("Vertical", "Meat")],
         [("URL", "u2"), ("Vertical", ""), ("Company Type", "Both")]]
        (fun _ => Except.ok "V")).get? 0 = some [("URL", "u1"), ("Vertical", "Meat")]) ∧
      ([("URL", "u1"), ("Vertical", "Meat")] ∉ AssignVert.rows_to_process
        [[("URL", "u1"), ("Vertical", "Meat")],
         [("URL", "u2"), ("Vertical", ""), ("Company Type", "Both")]]) := by
  have h := spec_c6_amended
    [[("URL", "u1"), ("Vertical", "Meat")],
     [("URL", "u2"), ("Vertical", ""), ("Company Type", "Both")]]
    (fun _ => Except.ok "V") (by decide) 0 [("URL", "u1"), ("Vertical", "Meat")]
    rfl (by decide)
  exact ⟨h.1, h.2.1⟩

/-- Claim C7: the merge of assign_vert.py (and sub_vertical.py) rewrites
exactly the rows whose key matches a completed result, replacing them with
that result's row content, leaves every other row untouched at its
position, never deletes a row (the length is preserved and the map
preserves order), and every completed result is its work-list source row
with only the designated output column changed. -/
theorem spec_c7_theorem (rows : List Row) (oc : Row → Except String String) :
    ((AssignVert.stage rows oc).length = rows.length) ∧
      (∀ i r, rows.get? i = some r →
        dictLookupLast AssignVert.urlKey (AssignVert.results rows oc)
          (AssignVert.urlKey r) = none →
        (AssignVert.stage rows oc).get? i = some r) ∧
      (∀ i r pr, rows.get? i = some r →
        dictLookupLast AssignVert.urlKey (AssignVert.results rows oc)
          (AssignVert.urlKey r) = some pr →
        (AssignVert.stage rows oc).get? i = some pr) ∧
      (∀ pr ∈ AssignVert.results rows oc, ∃ w, w ∈ AssignVert.rows_to_process rows ∧
        ∃ v, oc w = Except.ok v ∧ pr = rset w AssignVert.VERTICAL_COL v ∧
          rget pr AssignVert.VERTICAL_COL = v ∧
          ∀ c, c ≠ AssignVert.VERTICAL_COL → rget pr c = rget w c) ∧
      ((SubVertical.stage rows oc).length = rows.length) ∧
      (∀ pr ∈ SubVertical.results rows oc, ∃ w, w ∈ SubVertical.rows_to_process rows ∧
        ∃ v, oc w = Except.ok v ∧ pr = rset w SubVertical.SUB_VERTICAL_COL v ∧
          ∀ c, c ≠ SubVertical.SUB_VERTICAL_COL → rget pr c = rget w c) := by
  refine ⟨mergeByKey_length _ _ _, ?_, ?_, ?_, SubVertical.stage_length rows oc, ?_⟩
  · intro i r hr hnone
    exact mergeByKey_get_none _ _ _ i r hr hnone
  · intro i r pr hr hsome
    exact mergeByKey_get_some _ _ _ i r pr hr hsome
  · intro pr hpr
    obtain ⟨w, hw, v, hov, hpr2⟩ := AssignVert.av_mem_results rows oc pr hpr
    refine ⟨w, hw, v, hov, hpr2, ?_, ?_⟩
    · rw [hpr2]
      exact rget_rset_self w _ v
    · intro c hc
      rw [hpr2]
      exact rget_rset_ne w v (Ne.symm hc)
  · intro pr hpr
    obtain ⟨w, hw, v, hov, hpr2⟩ := SubVertical.sv_mem_results rows oc pr hpr
    refine ⟨w, hw, v, hov, hpr2, ?_⟩
    intro c hc
    rw [hpr2]
    exact rget_rset_ne w v (Ne.symm hc)

/-- Claim C7, witness at a one-row dataset whose row is not in the work
list, so the merge keeps it verbatim. -/
theorem spec_c7_witness :
    ((AssignVert.stage [[("URL", "u9"), ("Vertical", "Meat")]]
        (fun _ => Except.ok "x")).length = 1) ∧
      ((AssignVert.stage [[("URL", "u9"), ("Vertical", "Meat")]]
        (fun _ => Except.ok "x")).get? 0 = some [("URL", "u9"), ("Vertical", "Meat")]) := by
  have h := spec_c7_theorem [[("URL", "u9"), ("Vertical", "Meat")]] (fun _ => Except.ok "x")
  exact ⟨h.1, h.2.1 0 [("URL", "u9"), ("Vertical", "Meat")] rfl (by decide)⟩

/-- Claim C8: within one row's retry sequence the attempts are sequential
with a sleep of 2 to the power attempt minus 1 after each failed non-final
attempt, at most MAX_RETRIES = 3 attempts happen, and a classifier failing
twice then succeeding on the third attempt yields the stripped success
text after the two increasing backoff delays 1 and 2, in assign_vert.py
and in the scoring retry loop alike. -/
theorem spec_c8_theorem (oc : Nat → Retry.AttemptOutcome) (s : String)
    (h1 : (oc 1).isSuccess = false) (h2 : (oc 2).isSuccess = false)
    (h3 : oc 3 = Retry.AttemptOutcome.success s) :
    (Retry.classify_vertical oc =
        { result := pyStrip s, attempts := 3, sleeps := [1, 2] }) ∧
      (Retry.scoring_retry oc =
        { result := pyStrip s, attempts := 3, sleeps := [1, 2] }) ∧
      ((1 : Nat) < 2) ∧
      (∀ oc2 : Nat → Retry.AttemptOutcome,
        (Retry.classify_vertical oc2).attempts ≤ Retry.MAX_RETRIES ∧
        1 ≤ (Retry.classify_vertical oc2).attempts ∧
        (Retry.classify_vertical oc2).sleeps =
          (List.range ((Retry.classify_vertical oc2).attempts - 1)).map (fun i => 2 ^ i)) := by
  refine ⟨Retry.classify_vertical_two_fail_then_success oc h1 h2 s h3,
    Retry.scoring_retry_two_fail_then_success oc h1 h2 s h3, by omega, ?_⟩
  intro oc2
  have h := Retry.classify_vertical_schedule oc2
  exact ⟨h.1, h.2.1, h.2.2⟩

/-- Claim C8, witness: an oracle that times out twice and then returns a
padded success text. -/
theorem spec_c8_witness :
    Retry.classify_vertical
        (fun a => if a = 3 then Retry.AttemptOutcome.success " 42 " else
          Retry.AttemptOutcome.timeout) =
      { result := "42", attempts := 3, sleeps := [1, 2] } := by
  have h := spec_c8_theorem
    (fun a => if a = 3 then Retry.AttemptOutcome.success " 42 " else
      Retry.AttemptOutcome.timeout) " 42 " rfl rfl rfl
  rw [h.1]
  decide

/-- Claim C9, counterexample: clean_url is not idempotent: on the input
"a ?x" it returns "https://a " carrying the netloc's trailing space, and
cleaning that result again strips the space and returns "https://a". -/
theorem spec_c9_counterexample :
    CleanUrls.clean_url "a ?x" = some "https://a " ∧
      (CleanUrls.clean_url "a ?x").bind CleanUrls.clean_url = some "https://a" ∧
      (CleanUrls.clean_url "a ?x").bind CleanUrls.clean_url ≠ CleanUrls.clean_url "a ?x" := by
  refine ⟨by decide, by decide, by decide⟩

/-- Claim C9 (amended): clean_url is idempotent at every input whose result
carries no surrounding whitespace (full idempotence fails only when the
parsed netloc ends in whitespace that the second strip removes); for every
input that strips to non-empty the result begins with http:// or https://;
and whenever the result parses with both a scheme and a non-empty netloc it
is exactly scheme://netloc with an empty path, query and fragment
remainder. -/
theorem spec_c9_amended :
    (∀ u r : String, CleanUrls.clean_url u = some r → pyStrip r = r →
        CleanUrls.clean_url r = some r) ∧
      (∀ u r : String, CleanUrls.clean_url u = some r → pyStrip u ≠ "" →
        CleanUrls.HTTP.isPrefixOf r.data = true ∨ CleanUrls.HTTPS.isPrefixOf r.data = true) ∧
      (∀ (u r : String) (pre n rest : List Char), CleanUrls.clean_url u = some r →
        CleanUrls.urlsplit_fragment r = some (pre, n, rest) → n ≠ [] →
        r.data = pre ++ n ∧ rest = []) :=
  ⟨fun _ _ h hs => CleanUrls.clean_url_reclean h hs,
   fun _ _ h hne => CleanUrls.clean_url_result_scheme h hne,
   fun _ _ _ _ _ h hp hn => CleanUrls.clean_url_parse_exact h hp hn⟩

/-- Claim C9, witness: the amended idempotence applied to a plain host
name. -/
theorem spec_c9_witness :
    CleanUrls.clean_url "https://example.com" = some "https://example.com" :=
  spec_c9_amended.1 "example.com" "https://example.com" (by decide) (by decide)

/-- Claim C10: parse_info is total and schema-fixed: its key list is
exactly the 14 category labels in order; an input that is empty, all
whitespace or strips to the literal N/A maps every category to N/A; and a
category whose label does not occur in the text maps to N/A. -/
theorem spec_c10_theorem (info : String) (cat : String) :
    ((WebParser.parse_info info).map Prod.fst = WebParser.CATEGORIES) ∧
      ((info.data = [] ∨ (∀ c ∈ info.data, isPySpace c = true) ∨ pyStrip info = "N/A") →
        ∀ p ∈ WebParser.parse_info info, p.2 = "N/A") ∧
      (cat ∈ WebParser.CATEGORIES → substrOccurs cat info = false →
        ((cat, "N/A") ∈ WebParser.parse_info info ∧
          ∀ v, (cat, v) ∈ WebParser.parse_info info → v = "N/A")) := by
  refine ⟨WebParser.parse_info_keys info, ?_, ?_⟩
  · intro hcase p hp
    unfold WebParser.parse_info at hp
    split at hp
    · rw [List.mem_map] at hp
      obtain ⟨c, _, rfl⟩ := hp
      rfl
    · next hcond =>
      rcases hcase with hc | hc | hc
      · exfalso
        apply hcond
        simp [hc]
      · rw [List.mem_map] at hp
        obtain ⟨c, _, rfl⟩ := hp
        show WebParser.category_value c info = "N/A"
        exact WebParser.category_value_not_found c info
          (WebParser.findRest_none_of_all_space hc)
      · exfalso
        apply hcond
        simp [hc]
  · intro hcat hno
    have hfr : findRest (cat.data ++ [':']) info.data = none := by
      rcases hq : findRest (cat.data ++ [':']) info.data with _ | rest2
      · rfl
      · exfalso
        have hx : (findRest (cat.data ++ [':']) info.data).isSome = true := by
          rw [hq]
          rfl
        have hy := findRest_isSome_of_append_pat hx
        unfold substrOccurs at hno
        rw [hy] at hno
        exact absurd hno (by decide)
    constructor
    · unfold WebParser.parse_info
      split
      · exact List.mem_map.mpr ⟨cat, hcat, rfl⟩
      · refine List.mem_map.mpr ⟨cat, hcat, ?_⟩
        rw [WebParser.category_value_not_found cat info hfr]
    · intro v hv
      unfold WebParser.parse_info at hv
      split at hv
      · rw [List.mem_map] at hv
        obtain ⟨c, _, he⟩ := hv
        injection he with he1 he2
        exact he2.symm
      · rw [List.mem_map] at hv
        obtain ⟨c, _, he⟩ := hv
        injection he with he1 he2
        subst he1
        rw [← he2]
        exact WebParser.category_value_not_found _ info hfr

/-- Claim C10, witness: a text holding only a company name, checked for the
key list and for the absent ERP category. -/
theorem spec_c10_witness :
    ((WebParser.parse_info "COMPANY_NAME: Acme").map Prod.fst = WebParser.CATEGORIES) ∧
      ("ERP", "N/A") ∈ WebParser.parse_info "COMPANY_NAME: Acme" := by
  have h := spec_c10_theorem "COMPANY_NAME: Acme" "ERP"
  exact ⟨h.1, (h.2.2 (by decide) (by decide)).1⟩
